import Mathlib

/-!
Verification of the action-resolution engine of boardzilla-core.

The definitions below are a shallow embedding of `src/action/selection.ts`,
`src/action/action.ts` and `src/game.ts`:

* `Selection` / `RSel` embed the `Selection` class and its resolved form
  (`ResolvedSelection`);
* `Action.nextSelection` embeds `Action._nextSelection`, `Action.getRS` embeds
  `Action._getResolvedSelections`, `Action.process` embeds `Action._process`;
* `Game.getResolvedSelections` embeds the dispatch-level aggregation of
  `game.ts` (lines 289-334), with the flow-collaborator inputs (the result of
  `allowedActions`) carried as data.

TypeScript idioms are rendered as follows: `undefined`-able fields become
`Option`; a thrown exception becomes `Except.error` carrying the message;
in-place mutation becomes explicit state passing; the JS object used as the
argument map becomes an association list whose lookup takes the newest binding
(object spread `{...args, [name]: value}` is a prepend).  Functional
("computed") field values take the record of prior arguments, packaging the
positional prior arguments of the source.  Board elements are represented by
their identity (`SingleArg.el`), since the engine only ever tests element
membership and passes elements through.
-/

namespace Boardzilla

/-- A single player-supplied argument value (`SingleArgument`): string, number,
boolean, a board-element reference (by element id) or a player reference (by
position). -/
inductive SingleArg : Type where
  | s (v : String)
  | n (v : Int)
  | b (v : Bool)
  | el (id : Nat)
  | pl (pos : Nat)
deriving DecidableEq

/-- An `Argument`: a single value or an array of values (multi-select). -/
inductive Arg : Type where
  | one (v : SingleArg)
  | many (vs : List SingleArg)
deriving DecidableEq

/-- The argument record supplied so far (`Record<string, Argument>`). -/
abbrev Args : Type := List (String × Arg)

def Args.empty : Args := []

def Args.get (args : Args) (k : String) : Option Arg :=
  (List.find? (fun p => p.1 == k) args).map (fun p => p.2)

/-- The `name in args` test. -/
def Args.has (args : Args) (k : String) : Bool :=
  List.any args (fun p => p.1 == k)

/-- Object spread `{...args, [name]: value}`: the new binding wins. -/
def Args.set (args : Args) (k : String) (v : Arg) : Args :=
  (k, v) :: args

/-- A configurable Selection field: a constant or a function of the prior
arguments (the `T | ((...args) => T)` unions of `SelectionDefinition`). -/
inductive FVal (α : Type) : Type where
  | const (v : α)
  | fn (f : Args → α)

def FVal.eval : FVal α → Args → α
  | .const v, _ => v
  | .fn f, args => f args

/-- Enumerated choices: an array of values, or a key/value record in which case
the keys are the selectable values. -/
inductive ChoiceSpec : Type where
  | arr (vs : List SingleArg)
  | record (kvs : List (String × SingleArg))
deriving DecidableEq

/-- The idiom `choices instanceof Array ? choices : Object.keys(choices)`. -/
def ChoiceSpec.keyList : ChoiceSpec → List SingleArg
  | .arr vs => vs
  | .record kvs => kvs.map (fun p => SingleArg.s p.1)

/-- The Selection kinds (`type` field, selection.ts 101). -/
inductive SelType : Type where
  | board
  | choices
  | number
  | text
  | button
deriving DecidableEq

/-- The `Selection` class (selection.ts 100-165), restricted to the fields the
resolution engine reads.  `initial` and `clientContext` are opaque UI metadata
read by no modelled operation and are omitted; the string form of a board query
(which makes `resolve` throw "not impl") is likewise not modelled. -/
structure Selection : Type where
  name : String
  type : SelType
  prompt : Option (FVal String)
  skipIfOnlyOne : Bool
  skipIf : Option (FVal Bool)
  expand : Bool
  choices : Option (FVal ChoiceSpec)
  boardChoices : Option (FVal (List SingleArg))
  min : Option (FVal Int)
  max : Option (FVal Int)
  regexp : Option (String → Bool)
  value : Option Arg

/-- A `ResolvedSelection`: every functional field collapsed to a constant. -/
structure RSel : Type where
  name : String
  type : SelType
  prompt : Option String
  skipIfOnlyOne : Bool
  skipIf : Option Bool
  expand : Bool
  choices : Option ChoiceSpec
  boardChoices : Option (List SingleArg)
  min : Option Int
  max : Option Int
  regexp : Option (String → Bool)
  value : Option Arg

/-- Embeds `Selection.resolve` (selection.ts 241-253): evaluate every functional field
against the prior arguments; constant fields pass through (for a fully constant
selection the source returns `this`, with the same content). -/
def Selection.resolve (sel : Selection) (args : Args) : RSel :=
  { name := sel.name
    type := sel.type
    prompt := sel.prompt.map (fun f => f.eval args)
    skipIfOnlyOne := sel.skipIfOnlyOne
    skipIf := sel.skipIf.map (fun f => f.eval args)
    expand := sel.expand
    choices := sel.choices.map (fun f => f.eval args)
    boardChoices := sel.boardChoices.map (fun f => f.eval args)
    min := sel.min.map (fun f => f.eval args)
    max := sel.max.map (fun f => f.eval args)
    regexp := sel.regexp
    value := sel.value }

/-- Embeds `Selection.isMulti` (selection.ts 237-239). -/
def RSel.isMulti (s : RSel) : Bool :=
  s.min.isSome || s.max.isSome

/-- Embeds `Selection.isUnbounded` (selection.ts 222-225). -/
def RSel.isUnbounded (s : RSel) : Bool :=
  if s.type = SelType.number then
    match s.max with
    | none => true
    | some m => decide (m - s.min.getD 1 > 100)
  else
    decide (s.type = SelType.text) || decide (s.type = SelType.button)

/-- Embeds `Selection.isPossible` (selection.ts 255-265). -/
def RSel.isPossible (s : RSel) : Bool :=
  match s.type, s.choices with
  | SelType.choices, some cs => decide (cs.keyList.length > 0)
  | _, _ =>
    let isInBounds : Bool :=
      match s.max with
      | none => true
      | some m => decide (s.min.getD 1 ≤ m)
    match s.type, s.boardChoices with
    | SelType.board, some bc => isInBounds && decide (s.min.getD 1 ≤ (bc.length : Int))
    | _, _ => if s.type = SelType.number then isInBounds else true

/-- Modelled from the spec: the `range` helper (`src/utils.ts`) is not among the
sources; per §4.1 a bounded number Selection enumerates "the inclusive integer
range [min, max]". -/
def range (lo hi : Int) : List Int :=
  (List.range (hi + 1 - lo).toNat).map (fun (i : Nat) => lo + (i : Int))

/-- Modelled from the spec: the `combinations` helper (`src/action/utils.ts`) is
not among the sources; per §4.1 a multi-select enumerates "all combinations of
the candidate elements of every size between min and max", max unbounded when
absent. -/
def combinations (pool : List SingleArg) (lo : Int) (hi : Option Int) : List (List SingleArg) :=
  pool.sublists.filter (fun c =>
    decide (lo ≤ (c.length : Int)) &&
      (match hi with
       | none => true
       | some h => decide ((c.length : Int) ≤ h)))

/-- Embeds `Selection.options` (selection.ts 212-220).  For a bounded number Selection
the non-null assertion `this.max!` is rendered by `Option.getD` (the branch is
reached only with `max` present).  An absent candidate list is `[]`; note that a
present-but-empty list counts as present, as in JS where `[]` is truthy. -/
def RSel.options (s : RSel) : List Arg :=
  if s.isUnbounded then []
  else if s.type = SelType.number then
    (range (s.min.getD 1) (s.max.getD 0)).map (fun k => Arg.one (SingleArg.n k))
  else
    let choices := s.choices.map ChoiceSpec.keyList
    if s.isMulti then
      (combinations ((s.boardChoices.orElse (fun _ => choices)).getD []) (s.min.getD 1) s.max).map Arg.many
    else
      match s.boardChoices with
      | some bc => bc.map Arg.one
      | none =>
        match choices with
        | some cs => cs.map Arg.one
        | none => []

/-- The checks of `Selection.validate` (selection.ts 173-209) on the resolved
selection.  The result is `Except.error` for the one thrown exception
(`throw Error("Required multi select")`), otherwise `Except.ok` of the optional
error string.  The source's sequential `if` blocks fall through exactly as
modelled: a kind whose payload field is absent falls past its block, and the
successful multi-select board path falls past the `text`/`number` blocks (whose
type tests cannot match) to `return undefined`. -/
def validateChecks (s : RSel) (arg : Arg) : Except String (Option String) :=
  if s.skipIf = some true then Except.ok none
  else
    match s.type, s.choices with
    | SelType.choices, some cs =>
      match arg with
      | Arg.many _ => Except.ok (some ("multi-choice stil unsupported"))
      | Arg.one v =>
        Except.ok (if cs.keyList.contains v then none else some ("Not a valid choice"))
    | _, _ =>
      match s.type, s.boardChoices with
      | SelType.board, some results =>
        if s.isMulti then
          match arg with
          | Arg.one _ => Except.error ("Required multi select")
          | Arg.many vs =>
            if vs.any (fun a => ! results.contains a) then
              Except.ok (some ("Selected elements are not valid"))
            else if (match s.min with
                     | some m => decide ((vs.length : Int) < m)
                     | none => false) then
              Except.ok (some ("Below minimum"))
            else if (match s.max with
                     | some m => decide (m < (vs.length : Int))
                     | none => false) then
              Except.ok (some ("Above maximum"))
            else Except.ok none
        else
          Except.ok
            (match arg with
             | Arg.one v => if results.contains v then none else some ("Selected element is not valid")
             | Arg.many _ => some ("Selected element is not valid"))
      | _, _ =>
        match s.type with
        | SelType.text =>
          Except.ok
            (match arg with
             | Arg.one (SingleArg.s t) =>
               if (match s.regexp with
                   | none => true
                   | some re => re t) then none
               else some ("Invalid text entered")
             | _ => some ("Invalid text entered"))
        | SelType.number =>
          Except.ok
            (match arg with
             | Arg.one (SingleArg.n k) =>
               if (match s.min with
                   | some m => decide (k < m)
                   | none => false) then some ("Below minimum")
               else if (match s.max with
                        | some m => decide (m < k)
                        | none => false) then some ("Above maximum")
               else none
             | _ => some ("Not a number"))
        | _ => Except.ok none

/-- Embeds `Selection.validate` (selection.ts 173-209): resolve against the prior
arguments, then check the supplied value. -/
def Selection.validate (sel : Selection) (arg : Arg) (args : Args) : Except String (Option String) :=
  validateChecks (sel.resolve args) arg

/-- Builds `new Selection({ selectFromChoices: { choices } })`: the fresh
choices selection that `overrideOptions` returns in its non-board case
(selection.ts 292-298); every other field takes its constructor default. -/
def freshChoicesSel (options : List SingleArg) : RSel :=
  { name := ""
    type := SelType.choices
    prompt := none
    skipIfOnlyOne := true
    skipIf := none
    expand := false
    choices := some (ChoiceSpec.arr options)
    boardChoices := none
    min := none
    max := none
    regexp := none
    value := none }

/-- Embeds `Selection.overrideOptions` (selection.ts 287-299), rendered functionally:
the board case narrows `this.boardChoices` in place, the other case builds and
returns a fresh choices Selection leaving `this` unchanged.  The first component
is the state of `this` after the call, the second the returned value. -/
def RSel.overrideOptions (s : RSel) (options : List SingleArg) : RSel × RSel :=
  if s.type = SelType.board then
    let s2 := { s with boardChoices := some options }
    (s2, s2)
  else (s, freshChoicesSel options)

/-- A behavior callback (`do` move): transforms game state of type σ; a raised
exception becomes `Except.error` carrying `e.message`. -/
abbrev MoveFn (σ : Type) : Type := Args → σ → Except String σ

/-- The `Action` class restricted to the fields the claims exercise: `name` (set
by the registry), `prompt`, `_cfg.selections` and `_cfg.moves`
(action.ts 31-55). -/
structure Action (σ : Type) : Type where
  name : String
  prompt : String
  selections : List Selection
  moves : List (MoveFn σ)

/-- A pending move `{ action, args, selection }` (action.ts 71-75); the
dispatch layer of game.ts additionally sets a prompt on the pseudo-moves it
fabricates (game.ts 302-309). -/
structure PendingMove : Type where
  action : String
  prompt : Option String
  args : Args
  selection : RSel

/-- The scan loop of `Action._nextSelection` (action.ts 106-120), with the
accumulated prompt threaded; `prompt` truthiness is non-emptiness. -/
def nextSelectionAux (args : Args) : List Selection → String → Option RSel
  | [], _ => none
  | s :: rest, prompt =>
    let r := s.resolve args
    if r.skipIf = some true then nextSelectionAux args rest prompt
    else
      let prompt2 := r.prompt.getD prompt
      if args.has s.name then nextSelectionAux args rest prompt2
      else some (if prompt2 == "" then r else { r with prompt := some prompt2 })

/-- Embeds `Action._nextSelection` (action.ts 106-120). -/
def Action.nextSelection (a : Action σ) (args : Args) : Option RSel :=
  nextSelectionAux args a.selections a.prompt

/-- The TS `as SingleArgument[]` cast of `possibleOptions` (action.ts 95): only
ever applied to the options of a non-multi selection, which are single. -/
def Arg.asSingle : Arg → SingleArg
  | .one v => v
  | .many _ => SingleArg.b false

/-- The per-selection body of `Action._getResolvedSelections` after the
possible/unbounded early returns (the candidate loop and the return logic of
action.ts 80-99), with `rec` standing for the recursive call on the extended
argument map.  `possibleOptions`, `pruned`, `resolvedSelections` and `mayExpand`
are the loop's accumulators in their final state; `overrideOptions` is invoked
as in the source with its return value discarded, so only its in-place (board)
half affects the returned move. -/
def Action.getRSCore (a : Action σ) (args : Args) (sel : RSel)
    (rec : Arg → Option (List PendingMove)) : Option (List PendingMove) :=
  let possibleOptions := sel.options.filter (fun o => (rec o).isSome)
  let pruned := sel.options.any (fun o => (rec o).isNone)
  let resolvedSelections := (sel.options.filterMap rec).flatten
  let mayExpand := sel.expand &&
    ! sel.options.any (fun o =>
        match rec o with
        | some [] => true
        | _ => false)
  if possibleOptions.isEmpty then none
  else
    let sel2 := if pruned && ! sel.isMulti then
        (sel.overrideOptions (possibleOptions.map Arg.asSingle)).1
      else sel
    let move : PendingMove := { action := a.name, prompt := none, args := args, selection := sel2 }
    if resolvedSelections.isEmpty || sel.type = SelType.board then some [move]
    else if mayExpand then some resolvedSelections
    else if sel.skipIfOnlyOne && possibleOptions.length == 1 then some resolvedSelections
    else some [move]

/-- Embeds `Action._getResolvedSelections` (action.ts 67-100) with explicit recursion
fuel; each recursive call extends the argument map with the scanned selection's
name, so `selections.length + 1` fuel always suffices (`Action.getRS`), and the
0-fuel branch is unreachable from there (`Action.getRS_eq`). -/
def Action.getRSFuel (a : Action σ) : Nat → Args → Option (List PendingMove)
  | 0, _ => none
  | fuel + 1, args =>
    match a.nextSelection args with
    | none => some []
    | some sel =>
      if sel.isPossible then
        if sel.isUnbounded then
          some [{ action := a.name, prompt := none, args := args, selection := sel }]
        else a.getRSCore args sel (fun o => a.getRSFuel fuel (args.set sel.name o))
      else none

/-- Embeds `Action._getResolvedSelections` (action.ts 67-100): `undefined` is the
infeasible sentinel, `some []` means the argument map is complete. -/
def Action.getRS (a : Action σ) (args : Args) : Option (List PendingMove) :=
  a.getRSFuel (a.selections.length + 1) args

/-- Modelled from the spec (glue only): action.ts 129-135 calls
`selection.validate(args)` on each selection, against a newer Selection whose
`validate` reads its own argument out of the record — that Selection version is
not among the sources.  Per §4.2 the loop "validates every already-supplied
argument against its Selection (stopping at the first invalid one)": a selection
whose name has no binding yet is passed over, and the first validation error
stops the loop.  A thrown validation exception propagates (the loop is outside
the try/catch of action.ts 146-151). -/
def validateAllAux (args : Args) : List Selection → Except String (Option String)
  | [] => Except.ok none
  | s :: rest =>
    match args.get s.name with
    | none => validateAllAux args rest
    | some v =>
      match s.validate v args with
      | Except.error e => Except.error e
      | Except.ok (some err) => Except.ok (some err)
      | Except.ok none => validateAllAux args rest

/-- The validation loop of `Action._process` (action.ts 129-135). -/
def Action.validateAll (a : Action σ) (args : Args) : Except String (Option String) :=
  validateAllAux args a.selections

/-- Sequential execution of the registered `do` callbacks (the try/catch loop
of action.ts 146-151): the first exception stops the run and its message is the
returned error; the state reached so far is kept (no rollback). -/
def runMoves (moves : List (MoveFn σ)) (args : Args) (st : σ) : Option String × σ :=
  match moves with
  | [] => (none, st)
  | m :: rest =>
    match m args st with
    | Except.error e => (some e, st)
    | Except.ok st2 => runMoves rest args st2

/-- Embeds `Action._process` (action.ts 126-152).  The outer `Except.error` is an
exception escaping `_process` (only `validate` can throw; the move loop is
wrapped in try/catch); `Except.ok` carries the returned optional error string,
paired with the final state.  Note that the complete-arguments branch runs the
moves without consulting the validation error, exactly as the source does. -/
def Action.process (a : Action σ) (args : Args) (st : σ) : Except String (Option String) × σ :=
  match a.validateAll args with
  | Except.error e => (Except.error e, st)
  | Except.ok err =>
    match a.getRS args with
    | none => (Except.ok (some (err.getD ("unknown error during action._process"))), st)
    | some l =>
      if l.isEmpty then
        let r := runMoves a.moves args st
        (Except.ok r.1, r.2)
      else (Except.ok (some (err.getD ("incomplete action"))), st)

/-! Section: The dispatch layer of game.ts -/

/-- The result of `Game.allowedActions(player)` (game.ts 265-287), consumed by
the dispatch-level aggregation.  It is produced by the turn-flow collaborator
(out of core scope) and is carried here as data. -/
structure AllowedActions : Type where
  step : Option String
  prompt : Option String
  skipIfOnlyOne : Bool
  expand : Bool
  actions : List String

/-- The slice of the `Game` class the dispatch aggregation reads: the action
registry and the current `allowedActions` answer (`godMode` off). -/
structure Game (σ : Type) : Type where
  actions : List (String × Action σ)
  allowed : AllowedActions

/-- Embeds `Game.action(name, player)` (game.ts 188-202) minus the god-mode and
player-context bookkeeping: look the action up and assign it its registry name.
An unregistered name throws in the source (a programmer error); here it is
`none`, and the dispatch theorems assume every allowed name is registered. -/
def Game.action (g : Game σ) (name : String) : Option (Action σ) :=
  (g.actions.find? (fun p => p.1 == name)).map (fun p => { p.2 with name := name })

/-- The allowed action names paired with their registered actions. -/
def Game.allowedPairs (g : Game σ) : List (String × Action σ) :=
  g.allowed.actions.filterMap (fun n => (g.action n).map (fun a => (n, a)))

/-- The `possibleActions` accumulator of game.ts 294-313 in its final state:
the allowed actions whose empty-args resolution is feasible. -/
def Game.possibleActions (g : Game σ) : List String :=
  (g.allowedPairs.filter (fun p => (p.2.getRS Args.empty).isSome)).map (fun p => p.1)

/-- The pseudo-move fabricated for an expandable action that is already
complete with no arguments (game.ts 301-310): a `__action__` button selection
carrying the action name as its value. -/
def pseudoMove (σ : Type) (n : String) (act : Action σ) (prompt : Option String) : PendingMove :=
  { action := n
    prompt := prompt
    args := Args.empty
    selection :=
      { name := "__action__"
        type := SelType.button
        prompt := some act.prompt
        skipIfOnlyOne := true
        skipIf := none
        expand := false
        choices := none
        boardChoices := none
        min := none
        max := none
        regexp := none
        value := some (Arg.one (SingleArg.s n)) } }

/-- One allowed action's contribution to `resolvedSelections`
(game.ts 296-313): nothing if infeasible; the pseudo-move if complete and the
step has `expand`; its pending moves otherwise. -/
def actionContribution (expand : Bool) (prompt : Option String) (p : String × Action σ) : List PendingMove :=
  match p.2.getRS Args.empty with
  | none => []
  | some [] => if expand then [pseudoMove σ p.1 p.2 prompt] else []
  | some l => l

/-- The `resolvedSelections` accumulator of game.ts 294-313 in its final
state. -/
def Game.resolvedMoves (g : Game σ) : List PendingMove :=
  (g.allowedPairs.map (actionContribution g.allowed.expand g.allowed.prompt)).flatten

/-- The "choose an action" step (game.ts 317-328): a `__action__` choices
selection over all allowed action names, under the pseudo-action name `/`. -/
def chooseActionMove (g : Game σ) : PendingMove :=
  { action := "/"
    prompt := g.allowed.prompt
    args := Args.empty
    selection :=
      { name := "__action__"
        type := SelType.choices
        prompt := g.allowed.prompt
        skipIfOnlyOne := true
        skipIf := none
        expand := false
        choices := some (ChoiceSpec.arr (g.allowed.actions.map SingleArg.s))
        boardChoices := none
        min := none
        max := none
        regexp := none
        value := none } }

/-- The answer of `Game.getResolvedSelections` (its step/prompt header plus the
pending moves). -/
structure GameRS : Type where
  step : Option String
  prompt : Option String
  moves : List PendingMove

/-- Embeds `Game.getResolvedSelections(player)` without a preselected action
(game.ts 289-329): resolve every allowed action with empty args, drop the
infeasible ones, and either surface the surviving moves directly (single
survivor under `skipIfOnlyOne`, or `expand` with a non-empty move list) or fall
back to the "choose an action" step. -/
def Game.getResolvedSelections (g : Game σ) : Option GameRS :=
  if g.allowed.actions.isEmpty then none
  else
    let pa := g.possibleActions
    if pa.isEmpty then none
    else if g.allowed.skipIfOnlyOne && pa.length == 1 then
      some { step := g.allowed.step, prompt := g.allowed.prompt, moves := g.resolvedMoves }
    else if g.allowed.expand && ! (g.resolvedMoves).isEmpty then
      some { step := g.allowed.step, prompt := g.allowed.prompt, moves := g.resolvedMoves }
    else
      some { step := g.allowed.step, prompt := g.allowed.prompt, moves := [chooseActionMove g] }

/-! Section: The board context of game.ts 168-179 -/

/-- The slice of the board's ambient `_ctx` that `inContextOfPlayer`
manipulates: the active-player viewpoint (by player position). -/
structure BoardCtx : Type where
  player : Option Nat

/-- Embeds `Game.contextualizeBoardToPlayer` (game.ts 168-172): set the active player,
returning the previous value. -/
def contextualizeBoardToPlayer (ctx : BoardCtx) (p : Option Nat) : Option Nat × BoardCtx :=
  (ctx.player, { ctx with player := p })

/-- Embeds `Game.inContextOfPlayer` (game.ts 174-179).  The body `fn` threads the
mutable context and either returns a value or throws.  The source restores the
previous context only after a normal return (there is no `finally`), so a
thrown exception propagates with whatever context `fn` left behind. -/
def inContextOfPlayer (ctx : BoardCtx) (p : Nat) (fn : BoardCtx → Except ε α × BoardCtx) :
    Except ε α × BoardCtx :=
  let prev := (contextualizeBoardToPlayer ctx (some p)).1
  let ctx1 := (contextualizeBoardToPlayer ctx (some p)).2
  match fn ctx1 with
  | (Except.ok r, ctx2) => (Except.ok r, (contextualizeBoardToPlayer ctx2 prev).2)
  | (Except.error e, ctx2) => (Except.error e, ctx2)

/-! Section: Builders mirroring the Action API, and the concrete fixtures used by
the claim theorems and witnesses -/

/-- Embeds `action({prompt})` (the Action constructor) with the registry name already
assigned. -/
def mkAction (σ : Type) (name : String) (prompt : String) : Action σ :=
  { name := name, prompt := prompt, selections := [], moves := [] }

/-- Embeds `Action.chooseFrom` (action.ts 261-274): pushes a choices Selection. -/
def Action.chooseFrom (a : Action σ) (name : String) (cs : FVal ChoiceSpec)
    (skipOne expand : Bool) : Action σ :=
  { a with selections := a.selections ++
      [{ name := name
         type := SelType.choices
         prompt := none
         skipIfOnlyOne := skipOne
         skipIf := none
         expand := expand
         choices := some cs
         boardChoices := none
         min := none
         max := none
         regexp := none
         value := none }] }

/-- Embeds `Action.chooseNumber` (action.ts 375-386): pushes a number Selection. -/
def Action.chooseNumber (a : Action σ) (name : String) (mi ma : Option (FVal Int))
    (skipOne expand : Bool) (skipIf : Option (FVal Bool)) : Action σ :=
  { a with selections := a.selections ++
      [{ name := name
         type := SelType.number
         prompt := none
         skipIfOnlyOne := skipOne
         skipIf := skipIf
         expand := expand
         choices := none
         boardChoices := none
         min := mi
         max := ma
         regexp := none
         value := none }] }

/-- Embeds `Action.chooseOnBoard` (action.ts 443-476): pushes a board Selection
(multi-select when `min`/`max` given). -/
def Action.chooseOnBoard (a : Action σ) (name : String) (bq : FVal (List SingleArg))
    (mi ma : Option (FVal Int)) (skipOne expand : Bool) : Action σ :=
  { a with selections := a.selections ++
      [{ name := name
         type := SelType.board
         prompt := none
         skipIfOnlyOne := skipOne
         skipIf := none
         expand := expand
         choices := none
         boardChoices := some bq
         min := mi
         max := ma
         regexp := none
         value := none }] }

/-- Embeds `Action.do` (action.ts 179-182); `do` is a Lean keyword. -/
def Action.addDo (a : Action σ) (m : MoveFn σ) : Action σ :=
  { a with moves := a.moves ++ [m] }

/-- A behavior that appends its index to a trace state: used to observe that
`process` runs the callbacks exactly once each, in registration order. -/
def logMove (i : Nat) : MoveFn (List Nat) :=
  fun _ st => Except.ok (st ++ [i])

/-- A behavior that throws. -/
def throwMove (msg : String) : MoveFn (List Nat) :=
  fun _ _ => Except.error msg

/-- An action with no selections at all (trivially complete). -/
def AEmpty : Action Unit := mkAction Unit ("noop") ("p")

/-- Scenario B of the spec: `chooseFrom(choices: [])`. -/
def A2a : Action Unit :=
  (mkAction Unit ("pick") ("p")).chooseFrom ("r") (FVal.const (ChoiceSpec.arr [])) true false

/-- The boundary scenario: `chooseNumber(min: 5, max: 4)`. -/
def A2b : Action Unit :=
  (mkAction Unit ("pick") ("p")).chooseNumber ("n")
    (some (FVal.const 5)) (some (FVal.const 4)) true false none

/-- A single `chooseFrom(['oil'])` with `skipIfOnlyOne` (the default): its lone
selection terminates the action immediately. -/
def A3 : Action Unit :=
  (mkAction Unit ("pick") ("p")).chooseFrom ("r")
    (FVal.const (ChoiceSpec.arr [SingleArg.s ("oil")])) true false

/-- A single-candidate board selection followed by a number selection. -/
def A3b : Action Unit :=
  ((mkAction Unit ("pick") ("p")).chooseOnBoard ("c")
      (FVal.const [SingleArg.el 1]) none none true false).chooseNumber ("n")
    (some (FVal.const 1)) (some (FVal.const 2)) true false none

/-- A `chooseFrom(['oil'])` (skippable) followed by a number selection: here the
skip does happen. -/
def A3s : Action Unit :=
  ((mkAction Unit ("pick") ("p")).chooseFrom ("r")
      (FVal.const (ChoiceSpec.arr [SingleArg.s ("oil")])) true false).chooseNumber ("n")
    (some (FVal.const 1)) (some (FVal.const 2)) true false none

/-- Scenario C of the spec: `chooseFrom(['oil','garbage'])` with `expand`, then
`chooseNumber(max: r => r === 'oil' ? 3 : 1)`. -/
def A4 : Action Unit :=
  ((mkAction Unit ("take") ("p")).chooseFrom ("r")
      (FVal.const (ChoiceSpec.arr [SingleArg.s ("oil"), SingleArg.s ("garbage")])) true true).chooseNumber
    ("n") none
    (some (FVal.fn (fun args =>
      if args.get ("r") == some (Arg.one (SingleArg.s ("oil"))) then 3 else 1)))
    true false none

/-- A `chooseNumber('amount', min 1, max 3)` action with one logging behavior:
the C1 failing input supplies `amount = 5`. -/
def A1 : Action (List Nat) :=
  ((mkAction (List Nat) ("pay") ("p")).chooseNumber ("amount")
      (some (FVal.const 1)) (some (FVal.const 3)) true false none).addDo (logMove 0)

/-- The complete-but-invalid argument map for `A1`. -/
def args1 : Args := Args.empty.set ("amount") (Arg.one (SingleArg.n 5))

/-- The number selection used by the C6 witness. -/
def selN : Selection :=
  { name := "n"
    type := SelType.number
    prompt := none
    skipIfOnlyOne := true
    skipIf := none
    expand := false
    choices := none
    boardChoices := none
    min := some (FVal.const 1)
    max := some (FVal.const 3)
    regexp := none
    value := none }

/-- The C7 failing input: `chooseFrom(['a','b'])` with `skipIfOnlyOne: false`,
then `chooseNumber(min: 1, max: r => r === 'b' ? 0 : 5)` — the `'b'` branch is
infeasible, so the choices selection is pruned but (being non-board) keeps its
original candidate list in the surfaced move. -/
def A7 : Action Unit :=
  ((mkAction Unit ("pick") ("p")).chooseFrom ("r")
      (FVal.const (ChoiceSpec.arr [SingleArg.s ("a"), SingleArg.s ("b")])) false false).chooseNumber
    ("n") (some (FVal.const 1))
    (some (FVal.fn (fun args =>
      if args.get ("r") == some (Arg.one (SingleArg.s ("b"))) then 0 else 5)))
    true false none

/-- A multi-select board Selection (min 1, max 2 over two elements): supplying
a non-array value makes `validate` throw. -/
def selM : Selection :=
  { name := "cards"
    type := SelType.board
    prompt := none
    skipIfOnlyOne := true
    skipIf := none
    expand := false
    choices := none
    boardChoices := some (FVal.const [SingleArg.el 1, SingleArg.el 2])
    min := some (FVal.const 1)
    max := some (FVal.const 2)
    regexp := none
    value := none }

/-- A resolved number selection spanning 101 integers (min 1, max 101): more
than 100 values, yet bounded for the source. -/
def s101 : RSel :=
  { name := "n"
    type := SelType.number
    prompt := none
    skipIfOnlyOne := true
    skipIf := none
    expand := false
    choices := none
    boardChoices := none
    min := some 1
    max := some 101
    regexp := none
    value := none }

/-- An unbounded number selection (`max` unset), for the C5 witness. -/
def A5u : Action Unit :=
  (mkAction Unit ("guess") ("p")).chooseNumber ("n") (some (FVal.const 1)) none true false none

/-- The resolved selection `A5u.nextSelection` yields on empty args. -/
def selU : RSel :=
  { name := "n"
    type := SelType.number
    prompt := some ("p")
    skipIfOnlyOne := true
    skipIf := none
    expand := false
    choices := none
    boardChoices := none
    min := some 1
    max := none
    regexp := none
    value := none }

/-- A feasible registered action for the C9 witness (the registry assigns the
name). -/
def A9f : Action Unit :=
  (mkAction Unit ("") ("pf")).chooseNumber ("n") (some (FVal.const 1)) (some (FVal.const 3)) true false none

/-- An infeasible registered action for the C9 witness. -/
def A9i : Action Unit :=
  (mkAction Unit ("") ("pi")).chooseFrom ("x") (FVal.const (ChoiceSpec.arr [])) true false

/-- The C9 witness game: two allowed actions, one feasible, `skipIfOnlyOne`
policy on. -/
def gW : Game Unit :=
  { actions := [(("a1"), A9f), (("a2"), A9i)]
    allowed := { step := none, prompt := none, skipIfOnlyOne := true, expand := false,
                 actions := [("a1"), ("a2")] } }

/-- The C9 counterexample game: two feasible allowed actions and one infeasible
one, with `expand` off, so the dispatch falls back to the "choose an action"
step. -/
def gW2 : Game Unit :=
  { actions := [(("a1"), A9f), (("a2"), A9f), (("bad"), A9i)]
    allowed := { step := none, prompt := none, skipIfOnlyOne := true, expand := false,
                 actions := [("a1"), ("a2"), ("bad")] } }

/-- A body for `inContextOfPlayer` that returns normally. -/
def fnOk : BoardCtx → Except String Nat × BoardCtx :=
  fun ctx => (Except.ok 42, ctx)

/-- A body for `inContextOfPlayer` that throws, leaving the context as it found
it. -/
def fnErr : BoardCtx → Except String Nat × BoardCtx :=
  fun ctx => (Except.error ("boom"), ctx)

/-- The number of selections not yet bound in the argument map: the measure that
shrinks at every recursive call of `Action._getResolvedSelections`. -/
def unresolvedCount (sels : List Selection) (args : Args) : Nat :=
  (sels.filter (fun s => ! args.has s.name)).length

/-- Whether a `validate` call returned normally (did not throw). -/
def okB (e : Except String (Option String)) : Bool :=
  match e with
  | Except.ok _ => true
  | Except.error _ => false

/-- The resolved selection `A2a.nextSelection` yields on empty args. -/
def sel2 : RSel :=
  { name := "r"
    type := SelType.choices
    prompt := some ("p")
    skipIfOnlyOne := true
    skipIf := none
    expand := false
    choices := some (ChoiceSpec.arr [])
    boardChoices := none
    min := none
    max := none
    regexp := none
    value := none }

/-- The resolved selection `A3s.nextSelection` yields on empty args. -/
def selR3 : RSel :=
  { name := "r"
    type := SelType.choices
    prompt := some ("p")
    skipIfOnlyOne := true
    skipIf := none
    expand := false
    choices := some (ChoiceSpec.arr [SingleArg.s ("oil")])
    boardChoices := none
    min := none
    max := none
    regexp := none
    value := none }

/-- The resolved selection `A7.nextSelection` yields on empty args. -/
def selR7 : RSel :=
  { name := "r"
    type := SelType.choices
    prompt := some ("p")
    skipIfOnlyOne := false
    skipIf := none
    expand := false
    choices := some (ChoiceSpec.arr [SingleArg.s ("a"), SingleArg.s ("b")])
    boardChoices := none
    min := none
    max := none
    regexp := none
    value := none }

/-! Section: Lemmas about the embedding -/

theorem Args.has_set_self (args : Args) (k : String) (v : Arg) :
    (args.set k v).has k = true := by
  simp [Args.set, Args.has]

theorem Args.has_set_of_has (args : Args) (k k2 : String) (v : Arg) (h : args.has k = true) :
    (args.set k2 v).has k = true := by
  simp only [Args.has] at h
  simp only [Args.set, Args.has, List.any_cons, h, Bool.or_true]

theorem nextSelectionAux_mem (args : Args) :
    ∀ (l : List Selection) (prompt : String) (r : RSel),
      nextSelectionAux args l prompt = some r →
      ∃ s ∈ l, s.name = r.name ∧ args.has s.name = false := by
  intro l
  induction l with
  | nil =>
    intro prompt r h
    simp [nextSelectionAux] at h
  | cons s rest ih =>
    intro prompt r h
    simp only [nextSelectionAux] at h
    by_cases hskip : (s.resolve args).skipIf = some true
    · rw [if_pos hskip] at h
      obtain ⟨t, ht, hn⟩ := ih _ _ h
      exact ⟨t, List.mem_cons_of_mem _ ht, hn⟩
    · rw [if_neg hskip] at h
      cases hhas : args.has s.name with
      | true =>
        simp only [hhas, if_true] at h
        obtain ⟨t, ht, hn⟩ := ih _ _ h
        exact ⟨t, List.mem_cons_of_mem _ ht, hn⟩
      | false =>
        simp only [hhas, if_false] at h
        refine ⟨s, List.mem_cons_self s rest, ?_, hhas⟩
        cases h
        split <;> rfl

theorem length_filter_le_of_imp {α : Type} {p q : α → Bool} :
    ∀ (l : List α), (∀ x ∈ l, p x = true → q x = true) →
      (l.filter p).length ≤ (l.filter q).length := by
  intro l
  induction l with
  | nil => intro _; simp
  | cons a t ih =>
    intro h
    have ht := ih (fun x hx hpx => h x (List.mem_cons_of_mem _ hx) hpx)
    simp only [List.filter_cons]
    cases hp : p a with
    | true =>
      have hq : q a = true := h a (List.mem_cons_self a t) hp
      rw [hq]
      simpa using Nat.succ_le_succ ht
    | false =>
      cases hq : q a with
      | true =>
        simp only [if_true, List.length_cons]
        exact Nat.le_succ_of_le ht
      | false => exact ht

theorem length_filter_lt {α : Type} {p q : α → Bool} (a : α) :
    ∀ (l : List α), a ∈ l → q a = true → p a = false →
      (∀ x ∈ l, p x = true → q x = true) →
      (l.filter p).length < (l.filter q).length := by
  intro l
  induction l with
  | nil => intro h; simp at h
  | cons b t ih =>
    intro hmem hq hp himp
    simp only [List.filter_cons]
    rcases List.mem_cons.mp hmem with rfl | hmem2
    · rw [hp, hq]
      simp only [if_false, if_true, List.length_cons]
      exact Nat.lt_succ_of_le
        (length_filter_le_of_imp t (fun x hx => himp x (List.mem_cons_of_mem _ hx)))
    · have ht := ih hmem2 hq hp (fun x hx => himp x (List.mem_cons_of_mem _ hx))
      cases hpb : p b with
      | true =>
        have hqb := himp b (List.mem_cons_self b t) hpb
        rw [hqb]
        simp only [if_true, List.length_cons]
        exact Nat.succ_lt_succ ht
      | false =>
        cases hqb : q b with
        | true =>
          simp only [if_true, if_false, List.length_cons]
          exact Nat.lt_succ_of_lt ht
        | false => exact ht

theorem unresolvedCount_set_lt {σ : Type} {a : Action σ} {args : Args} {sel : RSel}
    (h : a.nextSelection args = some sel) (v : Arg) :
    unresolvedCount a.selections (args.set sel.name v) < unresolvedCount a.selections args := by
  obtain ⟨s, hs, hname, hhas⟩ := nextSelectionAux_mem args a.selections a.prompt sel h
  unfold unresolvedCount
  apply length_filter_lt s a.selections hs
  · simp [hhas]
  · rw [hname]
    simp [Args.has_set_self]
  · intro x hx hpx
    cases hb : args.has x.name with
    | false => simp [hb]
    | true =>
      have := Args.has_set_of_has args x.name sel.name v hb
      simp [this] at hpx

theorem getRSFuel_succ_none {σ : Type} {a : Action σ} {args : Args} (f : Nat)
    (h : a.nextSelection args = none) : a.getRSFuel (f + 1) args = some [] := by
  simp [Action.getRSFuel, h]

theorem getRSFuel_succ_some {σ : Type} {a : Action σ} {args : Args} {sel : RSel} (f : Nat)
    (h : a.nextSelection args = some sel) :
    a.getRSFuel (f + 1) args =
      if sel.isPossible then
        if sel.isUnbounded then
          some [{ action := a.name, prompt := none, args := args, selection := sel }]
        else a.getRSCore args sel (fun o => a.getRSFuel f (args.set sel.name o))
      else none := by
  simp [Action.getRSFuel, h]

theorem getRSFuel_congr {σ : Type} (a : Action σ) :
    ∀ (cnt : Nat) (args : Args), unresolvedCount a.selections args = cnt →
      ∀ (f g : Nat), cnt < f → cnt < g →
        a.getRSFuel f args = a.getRSFuel g args := by
  intro cnt
  induction cnt using Nat.strong_induction_on with
  | _ cnt ih =>
    intro args hcnt f g hf hg
    cases f with
    | zero => omega
    | succ f2 =>
      cases g with
      | zero => omega
      | succ g2 =>
        cases hsel : a.nextSelection args with
        | none => rw [getRSFuel_succ_none f2 hsel, getRSFuel_succ_none g2 hsel]
        | some sel =>
          rw [getRSFuel_succ_some f2 hsel, getRSFuel_succ_some g2 hsel]
          have hrec : (fun o => a.getRSFuel f2 (args.set sel.name o)) =
              (fun o => a.getRSFuel g2 (args.set sel.name o)) := by
            funext o
            have hlt := unresolvedCount_set_lt hsel o
            rw [hcnt] at hlt
            exact ih _ hlt _ rfl _ _ (by omega) (by omega)
          rw [hrec]

/-- The complete base case of `Action._getResolvedSelections`: no next
selection means the arguments are complete and the empty move list is
returned. -/
theorem Action.getRS_none {σ : Type} {a : Action σ} {args : Args}
    (h : a.nextSelection args = none) : a.getRS args = some [] :=
  getRSFuel_succ_none _ h

/-- The unfolding of `Action._getResolvedSelections` one step: the fuel of the
embedding is invisible, the recursive occurrence is `getRS` itself. -/
theorem Action.getRS_some {σ : Type} {a : Action σ} {args : Args} {sel : RSel}
    (h : a.nextSelection args = some sel) :
    a.getRS args =
      if sel.isPossible then
        if sel.isUnbounded then
          some [{ action := a.name, prompt := none, args := args, selection := sel }]
        else a.getRSCore args sel (fun o => a.getRS (args.set sel.name o))
      else none := by
  unfold Action.getRS
  rw [getRSFuel_succ_some _ h]
  have hrec : (fun o => a.getRSFuel a.selections.length (args.set sel.name o)) =
      (fun o => a.getRSFuel (a.selections.length + 1) (args.set sel.name o)) := by
    funext o
    have hlt := unresolvedCount_set_lt h o
    have hlen : unresolvedCount a.selections args ≤ a.selections.length :=
      List.length_filter_le _ _
    exact getRSFuel_congr a _ _ rfl _ _ (by omega) (by omega)
  rw [hrec]

theorem getRSCore_ne_nil {σ : Type} {a : Action σ} {args : Args} {sel : RSel}
    {rec : Arg → Option (List PendingMove)} {l : List PendingMove}
    (h : a.getRSCore args sel rec = some l) : l ≠ [] := by
  simp only [Action.getRSCore] at h
  split at h
  · exact absurd h (by simp)
  · rename_i hne
    split at h
    · cases h; simp
    · rename_i hguard
      have hres : ((sel.options.filterMap rec).flatten.isEmpty) = false := by
        cases hv : (sel.options.filterMap rec).flatten.isEmpty with
        | false => rfl
        | true => simp [hv] at hguard
      split at h
      · cases h
        intro hnil
        rw [hnil] at hres
        simp at hres
      · split at h
        · cases h
          intro hnil
          rw [hnil] at hres
          simp at hres
        · cases h; simp

theorem getRSCore_inv {σ : Type} {a : Action σ} {args : Args} {sel : RSel}
    {rec : Arg → Option (List PendingMove)} {l : List PendingMove}
    (h : a.getRSCore args sel rec = some l) :
    (∃ sel2, l = [{ action := a.name, prompt := none, args := args, selection := sel2 }]) ∨
      l = (sel.options.filterMap rec).flatten := by
  simp only [Action.getRSCore] at h
  split at h
  · exact absurd h (by simp)
  · split at h
    · cases h; exact Or.inl ⟨_, rfl⟩
    · split at h
      · cases h; exact Or.inr rfl
      · split at h
        · cases h; exact Or.inr rfl
        · cases h; exact Or.inl ⟨_, rfl⟩

theorem getRSFuel_mem {σ : Type} {a : Action σ} :
    ∀ (f : Nat) (args : Args) (l : List PendingMove) (pm : PendingMove),
      a.getRSFuel f args = some l → pm ∈ l →
      pm.action = a.name ∧ ∀ k, args.has k = true → pm.args.has k = true := by
  intro f
  induction f with
  | zero =>
    intro args l pm h
    simp [Action.getRSFuel] at h
  | succ f2 ih =>
    intro args l pm h hmem
    simp only [Action.getRSFuel] at h
    split at h
    · cases h; simp at hmem
    · rename_i sel hsel
      split at h
      · split at h
        · cases h
          simp only [List.mem_singleton] at hmem
          subst hmem
          exact ⟨rfl, fun k hk => hk⟩
        · rcases getRSCore_inv h with ⟨sel2, rfl⟩ | rfl
          · simp only [List.mem_singleton] at hmem
            subst hmem
            exact ⟨rfl, fun k hk => hk⟩
          · rw [List.mem_flatten] at hmem
            obtain ⟨l2, hl2, hpm⟩ := hmem
            rw [List.mem_filterMap] at hl2
            obtain ⟨o, _, hrec⟩ := hl2
            have hsub := ih (args.set sel.name o) l2 pm hrec hpm
            exact ⟨hsub.1, fun k hk => hsub.2 k (Args.has_set_of_has args k sel.name o hk)⟩
      · exact absurd h (by simp)

theorem getRS_mem {σ : Type} {a : Action σ} {args : Args} {l : List PendingMove}
    {pm : PendingMove} (h : a.getRS args = some l) (hmem : pm ∈ l) :
    pm.action = a.name ∧ ∀ k, args.has k = true → pm.args.has k = true :=
  getRSFuel_mem _ args l pm h hmem

theorem nextSelectionAux_none_iff (args : Args) :
    ∀ (l : List Selection) (prompt : String),
      nextSelectionAux args l prompt = none ↔
        ∀ s ∈ l, (s.resolve args).skipIf = some true ∨ args.has s.name = true := by
  intro l
  induction l with
  | nil => intro prompt; simp [nextSelectionAux]
  | cons s rest ih =>
    intro prompt
    simp only [nextSelectionAux]
    by_cases hskip : (s.resolve args).skipIf = some true
    · rw [if_pos hskip, ih]
      constructor
      · intro h t ht
        rcases List.mem_cons.mp ht with rfl | ht2
        · exact Or.inl hskip
        · exact h t ht2
      · intro h t ht
        exact h t (List.mem_cons_of_mem _ ht)
    · rw [if_neg hskip]
      cases hhas : args.has s.name with
      | true =>
        simp only [hhas, if_true, ih]
        constructor
        · intro h t ht
          rcases List.mem_cons.mp ht with rfl | ht2
          · exact Or.inr hhas
          · exact h t ht2
        · intro h t ht
          exact h t (List.mem_cons_of_mem _ ht)
      | false =>
        rw [if_neg (by simp)]
        constructor
        · intro h
          exact absurd h (by simp)
        · intro h
          rcases h s (List.mem_cons_self s rest) with h1 | h2
          · exact absurd h1 hskip
          · rw [hhas] at h2
            exact absurd h2 (by simp)

theorem Action.nextSelection_none_iff {σ : Type} (a : Action σ) (args : Args) :
    a.nextSelection args = none ↔
      ∀ s ∈ a.selections, (s.resolve args).skipIf = some true ∨ args.has s.name = true :=
  nextSelectionAux_none_iff args a.selections a.prompt

theorem process_complete {σ : Type} {a : Action σ} {args : Args} {st : σ}
    (hval : a.validateAll args = Except.ok none) (hnext : a.nextSelection args = none) :
    a.process args st = (Except.ok (runMoves a.moves args st).1, (runMoves a.moves args st).2) := by
  unfold Action.process
  rw [hval, Action.getRS_none hnext]
  rfl

theorem runMoves_logs (args : Args) :
    ∀ (l : List Nat) (st : List Nat), runMoves (l.map logMove) args st = (none, st ++ l) := by
  intro l
  induction l with
  | nil => intro st; simp [runMoves]
  | cons i t ih =>
    intro st
    simp only [List.map_cons, runMoves, logMove]
    rw [ih (st ++ [i])]
    simp

theorem runMoves_logs_throw (args : Args) (msg : String) (rest : List (MoveFn (List Nat))) :
    ∀ (l : List Nat) (st : List Nat),
      runMoves (l.map logMove ++ throwMove msg :: rest) args st = (some msg, st ++ l) := by
  intro l
  induction l with
  | nil => intro st; simp [runMoves, throwMove]
  | cons i t ih =>
    intro st
    simp only [List.map_cons, List.cons_append, runMoves, logMove, List.append_eq]
    rw [ih (st ++ [i])]
    simp

theorem possibleActions_mem {σ : Type} (g : Game σ) (n : String) :
    n ∈ g.possibleActions ↔
      ∃ act, (n, act) ∈ g.allowedPairs ∧ (act.getRS Args.empty).isSome = true := by
  unfold Game.possibleActions
  rw [List.mem_map]
  constructor
  · rintro ⟨p, hp, rfl⟩
    rw [List.mem_filter] at hp
    exact ⟨p.2, hp.1, hp.2⟩
  · rintro ⟨act, hmem, hsome⟩
    exact ⟨(n, act), List.mem_filter.mpr ⟨hmem, hsome⟩, rfl⟩

theorem allowedPairs_name {σ : Type} (g : Game σ) (p : String × Action σ)
    (h : p ∈ g.allowedPairs) : p.2.name = p.1 := by
  unfold Game.allowedPairs at h
  rw [List.mem_filterMap] at h
  obtain ⟨n, _, hmap⟩ := h
  unfold Game.action at hmap
  cases hfind : g.actions.find? (fun q => q.1 == n) with
  | none => rw [hfind] at hmap; simp at hmap
  | some q =>
    rw [hfind] at hmap
    simp at hmap
    rw [← hmap]

theorem contrib_nil_of_not_some {σ : Type} (e : Bool) (pr : Option String)
    (p : String × Action σ) (h : (p.2.getRS Args.empty).isSome = false) :
    actionContribution e pr p = [] := by
  cases hg : p.2.getRS Args.empty with
  | none => simp [actionContribution, hg]
  | some l => rw [hg] at h; simp at h

theorem contrib_action {σ : Type} {e : Bool} {pr : Option String} {p : String × Action σ}
    (hname : p.2.name = p.1) {pm : PendingMove}
    (hpm : pm ∈ actionContribution e pr p) : pm.action = p.1 := by
  unfold actionContribution at hpm
  cases hg : p.2.getRS Args.empty with
  | none => rw [hg] at hpm; simp at hpm
  | some l =>
    rw [hg] at hpm
    cases l with
    | nil =>
      simp only at hpm
      split at hpm
      · rw [List.mem_singleton] at hpm
        rw [hpm]
        rfl
      · simp at hpm
    | cons x xs =>
      simp only at hpm
      exact (getRS_mem hg hpm).1.trans hname

theorem contribJoin_single {σ : Type} (e : Bool) (pr : Option String) (n0 : String) :
    ∀ (pairs : List (String × Action σ)),
      (∀ p ∈ pairs, p.2.name = p.1) →
      (pairs.filter (fun p => (p.2.getRS Args.empty).isSome)).map (fun p => p.1) = [n0] →
      ∀ pm ∈ (pairs.map (actionContribution e pr)).flatten, pm.action = n0 := by
  intro pairs
  induction pairs with
  | nil => intro _ h; simp at h
  | cons p t ih =>
    intro hname hpa pm hpm
    simp only [List.map_cons, List.flatten_cons, List.mem_append] at hpm
    cases hsome : (p.2.getRS Args.empty).isSome with
    | false =>
      rw [List.filter_cons, if_neg (by simp [hsome])] at hpa
      rcases hpm with h1 | h2
      · rw [contrib_nil_of_not_some e pr p hsome] at h1
        simp at h1
      · exact ih (fun q hq => hname q (List.mem_cons_of_mem _ hq)) hpa pm h2
    | true =>
      rw [List.filter_cons, if_pos (by simp [hsome])] at hpa
      rw [List.map_cons, List.cons_eq_cons] at hpa
      obtain ⟨hp1, ht⟩ := hpa
      have htall : ∀ q ∈ t, (q.2.getRS Args.empty).isSome = false := by
        intro q hq
        cases hx : (q.2.getRS Args.empty).isSome with
        | false => rfl
        | true =>
          exfalso
          have hqf : q ∈ t.filter (fun p => (p.2.getRS Args.empty).isSome) :=
            List.mem_filter.mpr ⟨hq, hx⟩
          have : (q.1 : String) ∈ (t.filter (fun p => (p.2.getRS Args.empty).isSome)).map (fun p => p.1) :=
            List.mem_map.mpr ⟨q, hqf, rfl⟩
          rw [ht] at this
          simp at this
      rcases hpm with h1 | h2
      · exact (contrib_action (hname p (List.mem_cons_self p t)) h1).trans hp1
      · rw [List.mem_flatten] at h2
        obtain ⟨l2, hl2, hpml⟩ := h2
        rw [List.mem_map] at hl2
        obtain ⟨q, hq, rfl⟩ := hl2
        rw [contrib_nil_of_not_some e pr q (htall q hq)] at hpml
        simp at hpml

theorem resolvedMoves_mem {σ : Type} (g : Game σ) {pm : PendingMove}
    (hpm : pm ∈ g.resolvedMoves) :
    ∃ n act, (n, act) ∈ g.allowedPairs ∧ pm.action = n ∧
      (act.getRS Args.empty).isSome = true := by
  unfold Game.resolvedMoves at hpm
  rw [List.mem_flatten] at hpm
  obtain ⟨l2, hl2, hpml⟩ := hpm
  rw [List.mem_map] at hl2
  obtain ⟨p, hp, rfl⟩ := hl2
  refine ⟨p.1, p.2, hp, ?_, ?_⟩
  · exact contrib_action (allowedPairs_name g p hp) hpml
  · unfold actionContribution at hpml
    cases hg : p.2.getRS Args.empty with
    | none => rw [hg] at hpml; simp at hpml
    | some l => simp [hg]

/-! Section: The claims -/

/-- C1: evaluation of `Action._process` at the failing input.  The action `A1`
(`chooseNumber('amount', min 1, max 3)` with one registered behavior) is given
the complete argument map `{amount: 5}`: validation does report "Above maximum",
yet `_process` executes the `do` callback (the trace state gains its entry) and
returns no error — the claimed "error string returned, move not applied, no
callback executes, state unchanged" fails, and no truncation of the argument
list takes place. -/
theorem claim_C1 :
    A1.validateAll args1 = Except.ok (some ("Above maximum")) ∧
      A1.process args1 [] = (Except.ok none, [0]) :=
  ⟨rfl, rfl⟩

/-- C2: `Action._getResolvedSelections` distinguishes the three outcomes.  It
returns the infeasible sentinel (`none`, distinct from `some []`) when the next
selection is impossible — concretely for `chooseFrom(choices: [])` (`A2a`) and
for `chooseNumber(min: 5, max: 4)` (`A2b`) — and when every enumerated
candidate's recursive branch is infeasible; it returns `some []` exactly when
every non-skipped selection already has a value; otherwise it returns a
non-empty pending-move list. -/
theorem claim_C2 :
    A2a.getRS Args.empty = none ∧
    A2b.getRS Args.empty = none ∧
    ∀ (σ : Type) (a : Action σ) (args : Args),
      (∀ sel, a.nextSelection args = some sel → sel.isPossible = false →
        a.getRS args = none) ∧
      (∀ sel, a.nextSelection args = some sel → sel.isPossible = true →
        sel.isUnbounded = false →
        (∀ o ∈ sel.options, a.getRS (args.set sel.name o) = none) →
        a.getRS args = none) ∧
      (a.getRS args = some [] ↔
        ∀ s ∈ a.selections, (s.resolve args).skipIf = some true ∨ args.has s.name = true) ∧
      (∀ sel l, a.nextSelection args = some sel → a.getRS args = some l → l ≠ []) := by
  refine ⟨rfl, rfl, ?_⟩
  intro σ a args
  refine ⟨?_, ?_, ?_, ?_⟩
  · intro sel hsel hposs
    rw [Action.getRS_some hsel, hposs]
    rfl
  · intro sel hsel hposs hbound hall
    rw [Action.getRS_some hsel, hposs, hbound]
    simp only [if_true, if_false, Bool.true_eq_false]
    have hfil : sel.options.filter (fun o => (a.getRS (args.set sel.name o)).isSome) = [] := by
      rw [List.filter_eq_nil_iff]
      intro o ho
      simp [hall o ho]
    simp [Action.getRSCore, hfil]
  · constructor
    · intro h
      cases hsel : a.nextSelection args with
      | none => exact (a.nextSelection_none_iff args).mp hsel
      | some sel =>
        rw [Action.getRS_some hsel] at h
        exfalso
        split at h
        · split at h
          · simp at h
          · exact getRSCore_ne_nil h rfl
        · simp at h
    · intro h
      exact Action.getRS_none ((a.nextSelection_none_iff args).mpr h)
  · intro sel l hsel h
    rw [Action.getRS_some hsel] at h
    split at h
    · split at h
      · cases h
        simp
      · exact getRSCore_ne_nil h
    · simp at h

/-- Witness for C2: the general infeasibility clause applied to the concrete
empty-`chooseFrom` action. -/
theorem claim_C2_witness : A2a.getRS Args.empty = none :=
  (claim_C2.2.2 Unit A2a Args.empty).1 sel2 (by rfl) (by decide)

/-- C3 counterexample: two Selections with `skipIfOnlyOne` true and exactly one
legal value that `getResolvedSelections` nevertheless surfaces.  `A3` is a
single `chooseFrom(['oil'])`, whose lone selection terminates the action (empty
aggregate): the returned pending move carries that very selection.  `A3b` leads
with a single-candidate board selection followed by a number selection: the
board selection is surfaced, never skipped. -/
theorem claim_C3_cex :
    (A3.getRS Args.empty).map (fun l => l.map (fun pm => pm.selection.name)) = some [("r")] ∧
    (A3b.getRS Args.empty).map (fun l => l.map (fun pm => pm.selection.name)) = some [("c")] :=
  ⟨rfl, rfl⟩

/-- C3 (amended): a Selection with `skipIfOnlyOne` true and exactly one
surviving candidate is silently skipped — the aggregate of its single surviving
branch is surfaced instead, and every surfaced move already binds the
selection — provided the selection is not board-kind and the surviving branch
still has pending moves (a non-empty aggregate); a board-kind selection, or one
whose surviving branch completes the action immediately, is surfaced itself. -/
theorem claim_C3 : ∀ (σ : Type) (a : Action σ) (args : Args) (sel : RSel),
    a.nextSelection args = some sel →
    sel.isPossible = true →
    sel.isUnbounded = false →
    sel.type ≠ SelType.board →
    sel.skipIfOnlyOne = true →
    (sel.options.filter (fun o => (a.getRS (args.set sel.name o)).isSome)).length = 1 →
    ((sel.options.filterMap (fun o => a.getRS (args.set sel.name o))).flatten).isEmpty = false →
    a.getRS args = some ((sel.options.filterMap (fun o => a.getRS (args.set sel.name o))).flatten) ∧
      ∀ pm ∈ (sel.options.filterMap (fun o => a.getRS (args.set sel.name o))).flatten,
        pm.args.has sel.name = true := by
  intro σ a args sel hsel hposs hbound hnb hskip hlen hres
  constructor
  · rw [Action.getRS_some hsel, hposs, hbound]
    simp only [if_true, if_false, Bool.true_eq_false]
    simp only [Action.getRSCore]
    rw [hres]
    have hpe : (sel.options.filter (fun o => (a.getRS (args.set sel.name o)).isSome)).isEmpty = false := by
      cases hfe : sel.options.filter (fun o => (a.getRS (args.set sel.name o)).isSome) with
      | nil => rw [hfe] at hlen; simp at hlen
      | cons x xs => simp [hfe]
    rw [hpe, hlen]
    have hbd : decide (sel.type = SelType.board) = false := decide_eq_false hnb
    simp only [Bool.false_eq_true, if_false, hbd, Bool.or_false, hskip]
    cases hexp : (sel.expand &&
        ! sel.options.any (fun o =>
          match a.getRS (args.set sel.name o) with
          | some [] => true
          | _ => false)) <;> simp
  · intro pm hpm
    rw [List.mem_flatten] at hpm
    obtain ⟨l2, hl2, hpml⟩ := hpm
    rw [List.mem_filterMap] at hl2
    obtain ⟨o, _, hrec⟩ := hl2
    exact (getRS_mem hrec hpml).2 sel.name (Args.has_set_self args sel.name o)

/-- Witness for C3 (amended): the `chooseFrom(['oil'])`-then-number action skips
its first selection. -/
theorem claim_C3_witness :
    A3s.getRS Args.empty =
      some ((selR3.options.filterMap
        (fun o => A3s.getRS (Args.empty.set selR3.name o))).flatten) :=
  (claim_C3 Unit A3s Args.empty selR3 (by rfl) (by decide) (by decide) (by decide)
    (by rfl) (by decide) (by decide)).1

/-- C4: scenario C.  `chooseFrom(['oil','garbage'])` with `expand`, then
`chooseNumber(max: r => r === 'oil' ? 3 : 1)`: resolving with no arguments
yields exactly two pending moves, one per choice, both presenting the number
selection (with `max` 3 for 'oil' and 1 for 'garbage'); after supplying 'oil',
exactly one pending move for the number selection with `max = 3`. -/
theorem claim_C4 :
    (A4.getRS Args.empty).map
        (fun l => l.map (fun pm => (pm.args.get ("r"), pm.selection.type, pm.selection.max))) =
      some [(some (Arg.one (SingleArg.s ("oil"))), SelType.number, some 3),
            (some (Arg.one (SingleArg.s ("garbage"))), SelType.number, some 1)] ∧
    (A4.getRS (Args.empty.set ("r") (Arg.one (SingleArg.s ("oil"))))).map
        (fun l => l.map (fun pm => (pm.selection.type, pm.selection.min, pm.selection.max))) =
      some [(SelType.number, none, some 3)] :=
  ⟨by decide, by decide⟩

/-- C5 counterexample: the resolved number selection with `min 1, max 101` spans
101 values — more than 100 — yet `isUnbounded()` is false and `options()`
enumerates all 101 of them, contradicting the claimed 100-value cutoff (the
source cutoff is `max - min > 100`, i.e. more than 101 values). -/
theorem claim_C5_cex :
    ((101 : Int) - 1 + 1 > 100) ∧ s101.min = some 1 ∧ s101.max = some 101 ∧
      s101.isUnbounded = false ∧ s101.options.length = 101 :=
  ⟨by norm_num, rfl, rfl, by decide, by decide⟩

/-- C5 (amended): on a resolved number selection, `options()` enumerates the
inclusive integer range `[min, max]` with `min` defaulting to 1; the selection
is unbounded exactly when `max` is unset or the span `max - min` exceeds 100
(i.e. more than 101 values), in which case `options()` is empty; `text` and
`button` selections are always unbounded; and the resolution algorithm returns
an unbounded selection as a single leaf pending move without simulating
further. -/
theorem claim_C5 :
    (∀ lo hi k, k ∈ range lo hi ↔ lo ≤ k ∧ k ≤ hi) ∧
    (∀ s : RSel, s.type = SelType.number →
      ((s.isUnbounded = true) ↔ (s.max = none ∨ ∃ m, s.max = some m ∧ m - s.min.getD 1 > 100)) ∧
      (s.isUnbounded = true → s.options = []) ∧
      (∀ m, s.max = some m → s.isUnbounded = false →
        s.options = (range (s.min.getD 1) m).map (fun k => Arg.one (SingleArg.n k)))) ∧
    (∀ s : RSel, s.type = SelType.text ∨ s.type = SelType.button →
      s.isUnbounded = true ∧ s.options = []) ∧
    (∀ (σ : Type) (a : Action σ) (args : Args) (sel : RSel),
      a.nextSelection args = some sel → sel.isPossible = true → sel.isUnbounded = true →
      a.getRS args = some [{ action := a.name, prompt := none, args := args, selection := sel }]) := by
  refine ⟨?_, ?_, ?_, ?_⟩
  · intro lo hi k
    unfold range
    rw [List.mem_map]
    constructor
    · rintro ⟨i, hi1, rfl⟩
      rw [List.mem_range] at hi1
      omega
    · rintro ⟨h1, h2⟩
      refine ⟨(k - lo).toNat, ?_, ?_⟩
      · rw [List.mem_range]
        omega
      · omega
  · intro s hty
    refine ⟨?_, ?_, ?_⟩
    · simp only [RSel.isUnbounded, hty, if_true]
      cases hm : s.max with
      | none => simp
      | some m => simp
    · intro hu
      simp [RSel.options, hu]
    · intro m hm hu
      rw [RSel.options, hu]
      simp only [Bool.false_eq_true, if_false, hty, if_true, hm, Option.getD_some]
  · intro s hty
    rcases hty with h | h
    · constructor
      · simp [RSel.isUnbounded, h]
      · simp [RSel.options, RSel.isUnbounded, h]
    · constructor
      · simp [RSel.isUnbounded, h]
      · simp [RSel.options, RSel.isUnbounded, h]
  · intro σ a args sel hsel hposs hu
    rw [Action.getRS_some hsel, hposs, hu]
    rfl

/-- Witness for C5 (amended): the range characterization at `3 ∈ [1,5]`, the
unboundedness of a `max`-less selection, and the leaf behavior of the
resolution algorithm on it. -/
theorem claim_C5_witness :
    (3 : Int) ∈ range 1 5 ∧ selU.isUnbounded = true ∧
      A5u.getRS Args.empty =
        some [{ action := ("guess"), prompt := none, args := Args.empty, selection := selU }] :=
  ⟨(claim_C5.1 1 5 3).mpr (by norm_num),
   (claim_C5.2.1 selU rfl).1.mpr (Or.inl rfl),
   claim_C5.2.2.2 Unit A5u Args.empty selU (by rfl) (by decide) (by decide)⟩

/-- C6: for a complete, valid argument map, `_process` executes the registered
`do` callbacks exactly once each, in registration order, and returns no error;
a throwing callback is caught and its message surfaced as the returned error
string, with the state mutated by the earlier callbacks kept (no rollback).
The first clause reduces `_process` to the sequential callback run; the second
instantiates the state with an order-observing trace; the third adds a throwing
callback after `k` logging ones. -/
theorem claim_C6 :
    (∀ (σ : Type) (a : Action σ) (args : Args) (st : σ),
      a.validateAll args = Except.ok none →
      a.nextSelection args = none →
      a.process args st = (Except.ok (runMoves a.moves args st).1, (runMoves a.moves args st).2)) ∧
    (∀ (sels : List Selection) (nm pr : String) (args : Args) (st : List Nat) (n : Nat),
      Action.validateAll { name := nm, prompt := pr, selections := sels, moves := (List.range n).map logMove } args = Except.ok none →
      Action.nextSelection { name := nm, prompt := pr, selections := sels, moves := (List.range n).map logMove } args = none →
      Action.process { name := nm, prompt := pr, selections := sels, moves := (List.range n).map logMove } args st =
        (Except.ok none, st ++ List.range n)) ∧
    (∀ (sels : List Selection) (nm pr : String) (args : Args) (st : List Nat) (k : Nat)
        (msg : String) (rest : List (MoveFn (List Nat))),
      Action.validateAll { name := nm, prompt := pr, selections := sels, moves := (List.range k).map logMove ++ throwMove msg :: rest } args = Except.ok none →
      Action.nextSelection { name := nm, prompt := pr, selections := sels, moves := (List.range k).map logMove ++ throwMove msg :: rest } args = none →
      Action.process { name := nm, prompt := pr, selections := sels, moves := (List.range k).map logMove ++ throwMove msg :: rest } args st =
        (Except.ok (some msg), st ++ List.range k)) := by
  refine ⟨?_, ?_, ?_⟩
  · intro σ a args st hval hnext
    exact process_complete hval hnext
  · intro sels nm pr args st n hval hnext
    rw [process_complete hval hnext]
    rw [show Action.moves { name := nm, prompt := pr, selections := sels, moves := (List.range n).map logMove } = (List.range n).map logMove from rfl]
    rw [runMoves_logs args (List.range n) st]
  · intro sels nm pr args st k msg rest hval hnext
    rw [process_complete hval hnext]
    rw [show Action.moves { name := nm, prompt := pr, selections := sels, moves := (List.range k).map logMove ++ throwMove msg :: rest } = (List.range k).map logMove ++ throwMove msg :: rest from rfl]
    rw [runMoves_logs_throw args msg rest (List.range k) st]

/-- Witness for C6: the two-callback action on the valid complete map `{n: 2}`
runs both callbacks in order. -/
theorem claim_C6_witness :
    Action.process
        { name := ("add"), prompt := ("p"), selections := [selN], moves := (List.range 2).map logMove }
        (Args.empty.set ("n") (Arg.one (SingleArg.n 2))) [] =
      (Except.ok none, [0, 1]) := by
  have h := claim_C6.2.1 [selN] ("add") ("p")
    (Args.empty.set ("n") (Arg.one (SingleArg.n 2))) [] 2 (by rfl) (by rfl)
  simpa using h

/-- C7: evaluation at the failing input.  In `A7` the candidate 'b' of the
choices selection is pruned (its branch is infeasible), the selection is not
multi-valued, and `overrideOptions` is invoked — but its narrowing is lost for
a choices-kind selection (the fresh narrowed selection it returns is discarded,
and only the board case mutates in place), so the surfaced pending move still
offers both 'a' and 'b', contradicting the claimed narrowing to the surviving
subset. -/
theorem claim_C7 :
    (A7.getRS (Args.empty.set ("r") (Arg.one (SingleArg.s ("b"))))).isNone = true ∧
    (A7.getRS Args.empty).map
        (fun l => l.map (fun pm => (pm.selection.name, pm.selection.choices))) =
      some [(("r"), some (ChoiceSpec.arr [SingleArg.s ("a"), SingleArg.s ("b")]))] ∧
    (selR7.overrideOptions [SingleArg.s ("a")]).1 = selR7 :=
  ⟨by decide, by decide, rfl⟩

/-- C8 counterexample: `validate` throws.  For the multi-select board selection
`selM` (min 1, max 2), a non-array supplied value raises
`Error("Required multi select")` instead of returning an error string. -/
theorem claim_C8_cex :
    selM.validate (Arg.one (SingleArg.el 1)) Args.empty =
      Except.error ("Required multi select") :=
  rfl

/-- C8 (amended): `validate` returns all player-input error conditions as
values — wrong type, out-of-range number, value outside the allowed set,
multi-select count outside `[min, max]` — with exactly one exception: a
non-array value supplied to a multi-select board selection is thrown
(`throw Error("Required multi select")`), and that is the only way `validate`
can raise. -/
theorem claim_C8 : ∀ (sel : Selection) (arg : Arg) (args : Args),
    okB (sel.validate arg args) = true ∨
    (sel.validate arg args = Except.error ("Required multi select") ∧
      (sel.resolve args).type = SelType.board ∧
      ((sel.resolve args).boardChoices).isSome = true ∧
      (sel.resolve args).isMulti = true ∧
      (∃ v, arg = Arg.one v)) := by
  intro sel arg args
  unfold Selection.validate
  by_cases hskip : (sel.resolve args).skipIf = some true
  · left
    simp [validateChecks, hskip, okB]
  · cases hty : (sel.resolve args).type with
    | choices =>
      cases hch : (sel.resolve args).choices with
      | none =>
        left
        simp [validateChecks, hskip, hty, hch, okB]
      | some cs =>
        left
        cases arg <;> simp [validateChecks, hskip, hty, hch, okB]
    | board =>
      cases hbc : (sel.resolve args).boardChoices with
      | none =>
        left
        simp [validateChecks, hskip, hty, hbc, okB]
      | some results =>
        cases hmul : (sel.resolve args).isMulti with
        | false =>
          left
          simp [validateChecks, hskip, hty, hbc, hmul, okB]
        | true =>
          cases arg with
          | one v =>
            right
            refine ⟨?_, rfl, rfl, rfl, ⟨v, rfl⟩⟩
            simp [validateChecks, hskip, hty, hbc, hmul]
          | many vs =>
            left
            simp only [validateChecks, hskip, hty, hbc, hmul, if_true, if_false]
            split
            · simp [okB]
            · split
              · simp [okB]
              · split <;> simp [okB]
    | number =>
      left
      cases hch : (sel.resolve args).choices with
      | none =>
        cases hbc : (sel.resolve args).boardChoices with
        | none => cases arg <;> simp [validateChecks, hskip, hty, hch, hbc, okB]
        | some results => cases arg <;> simp [validateChecks, hskip, hty, hch, hbc, okB]
      | some cs =>
        cases hbc : (sel.resolve args).boardChoices with
        | none => cases arg <;> simp [validateChecks, hskip, hty, hch, hbc, okB]
        | some results => cases arg <;> simp [validateChecks, hskip, hty, hch, hbc, okB]
    | text =>
      left
      cases hch : (sel.resolve args).choices with
      | none =>
        cases hbc : (sel.resolve args).boardChoices with
        | none => cases arg <;> simp [validateChecks, hskip, hty, hch, hbc, okB]
        | some results => cases arg <;> simp [validateChecks, hskip, hty, hch, hbc, okB]
      | some cs =>
        cases hbc : (sel.resolve args).boardChoices with
        | none => cases arg <;> simp [validateChecks, hskip, hty, hch, hbc, okB]
        | some results => cases arg <;> simp [validateChecks, hskip, hty, hch, hbc, okB]
    | button =>
      left
      cases hch : (sel.resolve args).choices with
      | none =>
        cases hbc : (sel.resolve args).boardChoices with
        | none => cases arg <;> simp [validateChecks, hskip, hty, hch, hbc, okB]
        | some results => cases arg <;> simp [validateChecks, hskip, hty, hch, hbc, okB]
      | some cs =>
        cases hbc : (sel.resolve args).boardChoices with
        | none => cases arg <;> simp [validateChecks, hskip, hty, hch, hbc, okB]
        | some results => cases arg <;> simp [validateChecks, hskip, hty, hch, hbc, okB]

/-- Witness for C8 (amended): a proper array supplied to the multi-select board
selection validates without throwing. -/
theorem claim_C8_witness :
    okB (selM.validate (Arg.many [SingleArg.el 1]) Args.empty) = true := by
  rcases claim_C8 selM (Arg.many [SingleArg.el 1]) Args.empty with h | h
  · exact h
  · rw [show selM.validate (Arg.many [SingleArg.el 1]) Args.empty = Except.ok none from rfl] at h
    exact absurd h.1 (by simp)

/-- C9 counterexample: the allowed action "bad" resolves with empty args to the
infeasible sentinel, yet the dispatch answer for `gW2` (two feasible actions,
`expand` off, so the fallback "choose an action" step is reached) offers "bad"
among the choices of its `__action__` selection — the infeasible action IS
offered, because game.ts 325 builds the fallback from `allowedActions.actions`,
not from the surviving actions. -/
theorem claim_C9_cex :
    (gW2.action ("bad")).map (fun a => (a.getRS Args.empty).isNone) = some true ∧
    (gW2.getResolvedSelections).map
        (fun r => r.moves.map (fun pm => (pm.action, pm.selection.choices))) =
      some [(("/"),
        some (ChoiceSpec.arr [SingleArg.s ("a1"), SingleArg.s ("a2"), SingleArg.s ("bad")]))] :=
  ⟨by decide, by decide⟩

/-- C9 (amended): dispatch-level aggregation.  Each currently allowed action is
resolved with empty args; an action survives exactly when that resolution is
feasible, and an infeasible action contributes no pending moves — every
surfaced move either belongs to a feasible allowed action or is the fallback
"choose an action" step (`/`), whose selection lists every allowed action name,
infeasible ones included.  If no action survives the result is `none` (no
legal move); with `skipIfOnlyOne` and a single surviving action, its pending
moves are returned directly — every returned move belongs to that action, with
no intermediate "choose an action" step.  The hypothesis that every allowed
name is registered matches the source, where an unregistered name is a
programmer error that throws. -/
theorem claim_C9 : ∀ (σ : Type) (g : Game σ),
    (∀ n ∈ g.allowed.actions, (g.action n).isSome = true) →
    ((∀ n, n ∈ g.possibleActions ↔
        ∃ act, (n, act) ∈ g.allowedPairs ∧ (act.getRS Args.empty).isSome = true) ∧
     (∀ r, g.getResolvedSelections = some r → ∀ pm ∈ r.moves,
        pm.action = ("/") ∨
          ∃ n act, (n, act) ∈ g.allowedPairs ∧ pm.action = n ∧
            (act.getRS Args.empty).isSome = true) ∧
     (g.possibleActions = [] → g.getResolvedSelections = none) ∧
     (∀ n0, g.allowed.skipIfOnlyOne = true → g.possibleActions = [n0] →
       g.getResolvedSelections =
         some { step := g.allowed.step, prompt := g.allowed.prompt, moves := g.resolvedMoves } ∧
       ∀ pm ∈ g.resolvedMoves, pm.action = n0)) := by
  intro σ g _
  refine ⟨fun n => possibleActions_mem g n, ?_, ?_, ?_⟩
  · intro r hr pm hpm
    simp only [Game.getResolvedSelections] at hr
    split at hr
    · exact absurd hr (by simp)
    · split at hr
      · exact absurd hr (by simp)
      · split at hr
        · cases hr
          exact Or.inr (resolvedMoves_mem g hpm)
        · split at hr
          · cases hr
            exact Or.inr (resolvedMoves_mem g hpm)
          · cases hr
            rw [List.mem_singleton] at hpm
            rw [hpm]
            exact Or.inl rfl
  · intro hpa
    unfold Game.getResolvedSelections
    cases hae : g.allowed.actions.isEmpty with
    | true => rfl
    | false =>
      rw [hpa]
      rfl
  · intro n0 hskip hpa
    have hne : g.allowed.actions.isEmpty = false := by
      cases hae : g.allowed.actions.isEmpty with
      | false => rfl
      | true =>
        exfalso
        have hnil : g.allowed.actions = [] := List.isEmpty_iff.mp hae
        have hpnil : g.possibleActions = [] := by
          unfold Game.possibleActions Game.allowedPairs
          rw [hnil]
          rfl
        rw [hpa] at hpnil
        cases hpnil
    constructor
    · unfold Game.getResolvedSelections
      rw [hne, hpa, hskip]
      rfl
    · intro pm hpm
      refine contribJoin_single g.allowed.expand g.allowed.prompt n0 g.allowedPairs
        (fun p hp => allowedPairs_name g p hp) ?_ pm hpm
      exact hpa

/-- Witness for C9: the two-action game `gW` (one feasible action "a1", one
infeasible "a2", `skipIfOnlyOne` on) surfaces "a1"'s pending moves directly. -/
theorem claim_C9_witness :
    gW.getResolvedSelections =
      some { step := none, prompt := none, moves := gW.resolvedMoves } :=
  ((claim_C9 Unit gW (by decide)).2.2.2 ("a1") rfl (by decide)).1

/-- C10: `inContextOfPlayer` sets the board's active-player context, runs the
body, and on normal return restores the exact previous context and returns the
body's result; but when the body throws, the previous context is not restored
(there is no `finally`): the exception propagates with whatever context the
body left — in particular, for a body that does not itself move the context,
still set to the given player. -/
theorem claim_C10 : ∀ (α ε : Type) (ctx : BoardCtx) (p : Nat)
    (fn : BoardCtx → Except ε α × BoardCtx),
    (∀ r ctx2, fn { player := some p } = (Except.ok r, ctx2) →
      inContextOfPlayer ctx p fn = (Except.ok r, { player := ctx.player })) ∧
    (∀ e ctx2, fn { player := some p } = (Except.error e, ctx2) →
      inContextOfPlayer ctx p fn = (Except.error e, ctx2)) := by
  intro α ε ctx p fn
  constructor
  · intro r ctx2 hfn
    simp only [inContextOfPlayer, contextualizeBoardToPlayer]
    rw [hfn]
  · intro e ctx2 hfn
    simp only [inContextOfPlayer, contextualizeBoardToPlayer]
    rw [hfn]

/-- Witness for C10: a throwing body leaves the context set to player 3 (the
previous context, `none`, is not restored); a normal body gets it restored. -/
theorem claim_C10_witness :
    inContextOfPlayer { player := none } 3 fnErr =
      (Except.error ("boom"), { player := some 3 }) ∧
    inContextOfPlayer { player := none } 3 fnOk = (Except.ok 42, { player := none }) :=
  ⟨(claim_C10 Nat String { player := none } 3 fnErr).2 ("boom") { player := some 3 } rfl,
   (claim_C10 Nat String { player := none } 3 fnOk).1 42 { player := some 3 } rfl⟩

end Boardzilla
